import Mathlib

/-!
Shallow embedding of the decoding engine of `src/algorithms/lm_fused_rnn.py`:
the beam-search inference routines of `Seq2SeqLMFusion`
(`basenet_inference`, `shallow_fuse_inference`, `deep_fuse_inference`),
the LM-only scoring routine `lm_heuristics`, and the attention / decoder
step functions of `Decoder` (`attention`, `forward`, `get_hidden`).

Modelling conventions:
- Token ids are natural numbers.
- Scores (Python floats) are modelled by a generic linearly ordered score
  type `S`; concrete instantiations use `ℤ` or `ℚ`.
- The trained network components (`self.encoder`, `self.decoder`,
  `self.lm_decoder.decoding`, the learned layers `W1`/`W2`/`V`/`fc`, and
  `nn.functional.log_softmax`) are opaque pre-trained functions of the
  engine (spec §1, §4) and are passed in as function parameters.
- `cur_pred_list.sort(key=_avg_score, reverse=True)` is Python's stable
  descending sort; it is modelled by a structurally recursive stable
  insertion sort (the output of a stable sort is uniquely determined by
  the key order and the input order, so any stable sort is a faithful
  model).
- Python exceptions (ZeroDivisionError in `lm_heuristics`, the
  `Exception` raised by `Decoder.forward`) are modelled with `Option`.
-/

namespace LMF

/-- Token ids: nonnegative Python ints indexing the vocabulary. -/
abbrev Token := Nat

section Sorting

variable {α : Type}

/-- Insert `a` into `l` in front of the first element `b` with `le a b`;
used to model Python's stable sort (ties keep insertion order because an
element being inserted comes earlier in the original list than everything
to its right). -/
def insertDesc (le : α → α → Bool) (a : α) : List α → List α
  | [] => [a]
  | b :: t => if le a b then a :: b :: t else b :: insertDesc le a t

/-- Model of `list.sort(key=..., reverse=True)` (source lines 529, 646,
784): a stable sort putting larger keys first. -/
def sortDesc (le : α → α → Bool) : List α → List α
  | [] => []
  | a :: t => insertDesc le a (sortDesc le t)

/-- Key-based comparison: `a` may stay before `b` iff `b`'s key does not
exceed `a`'s. Both sorts of the source (`cur_pred_list.sort(key=...,
reverse=True)` and `torch.topk`) order by a key, descending. -/
def keyLE {α S : Type} [LinearOrder S] (k : α → S) : α → α → Bool :=
  fun a b => decide (k b ≤ k a)

end Sorting

section Beam

/-- The three inference loops differ only in the hypothesis tuple they
carry and in how a live hypothesis is expanded; `BeamOps` packages the
score projection `top_pred[][0]`, the sequence projection `top_pred[][1]`
and the expansion body of the corresponding loop. -/
structure BeamOps (S α : Type) where
  score : α → S
  seq : α → List Token
  expand : α → List α

variable {S α : Type} [LinearOrder S]

/-- Comparison used by `cur_pred_list.sort(key=_avg_score, reverse=True)`:
`a` may stay before `b` iff `b`'s score is not larger. -/
def scoreLE (ops : BeamOps S α) : α → α → Bool :=
  keyLE ops.score

/-- Candidates contributed by one hypothesis `p_tup` of `top_pred_list`
(source lines 505-527): a hypothesis whose sequence ends in `end_tok` is
carried over unchanged, any other is expanded. -/
def hypCands (ops : BeamOps S α) (end_tok : Token) (p : α) : List α :=
  if (ops.seq p).getLastI = end_tok then [p] else ops.expand p

/-- `cur_pred_list` after the inner `for p_tup in top_pred_list` loop. -/
def candList (ops : BeamOps S α) (end_tok : Token) (top : List α) : List α :=
  top.flatMap (hypCands ops end_tok)

/-- Pruning: `cur_pred_list.sort(key=_avg_score, reverse=True)` followed by
`top_pred_list = cur_pred_list[:beam_width]` (source lines 529-530). -/
def pruneBeam (ops : BeamOps S α) (beam_width : ℕ) (cur : List α) : List α :=
  (sortDesc (scoreLE ops) cur).take beam_width

/-- One iteration of the `for t in range(max_tgt_sz)` loop body. -/
def beamStep (ops : BeamOps S α) (end_tok : Token) (beam_width : ℕ)
    (top : List α) : List α :=
  pruneBeam ops beam_width (candList ops end_tok top)

/-- Early-stop test (source lines 533-534): `end_flags_` sums the kept
hypotheses ending in `end_tok`, and the loop breaks when
`beam_width == sum(end_flags_)`. -/
def allEnded (ops : BeamOps S α) (end_tok : Token) (beam_width : ℕ)
    (top : List α) : Bool :=
  beam_width == top.countP (fun p => (ops.seq p).getLastI == end_tok)

/-- The `for t in range(max_tgt_sz)` loop (source lines 502-534): at most
`fuel` iterations of `beamStep`, stopping early when `allEnded`. -/
def beamLoop (ops : BeamOps S α) (end_tok : Token) (beam_width : ℕ) :
    ℕ → List α → List α
  | 0, top => top
  | fuel + 1, top =>
    let top' := beamStep ops end_tok beam_width top
    if allEnded ops end_tok beam_width top' then top'
    else beamLoop ops end_tok beam_width fuel top'

/-- Model of `torch.topk(v, k, dim=1)` on a vector: the `k` largest
entries as (value, index) pairs, values descending, ties by lower index
first. -/
def topk (k : ℕ) (v : List S) : List (S × ℕ) :=
  (sortDesc (keyLE (fun p => p.1)) (v.enum.map (fun p => (p.2, p.1)))).take k

end Beam

section Basenet

variable {S E H : Type} [LinearOrder S] [Zero S] [Add S]

/-- Expansion body of `basenet_inference` for a live hypothesis (source
lines 510-527): run the decoder step on the last token and the stored
hidden state, `log_softmax` the logits, take the top `beam_width`
entries, and emit one extended hypothesis per entry. -/
def basenetExpand (decoder : Token → Option H → E → List S × H)
    (lsm : List S → List S) (enc_output : E) (beam_width : ℕ)
    (p : S × List Token × Option H) : List (S × List Token × Option H) :=
  let d := decoder p.2.1.getLastI p.2.2 enc_output
  (topk beam_width (lsm d.1)).map
    (fun vi => (p.1 + vi.1, p.2.1 ++ [vi.2], some d.2))

/-- `BeamOps` instance of `basenet_inference`; hypothesis tuples are
`(Σ log_softmax, sequence, dec_hidden)` (source lines 497-500). -/
def basenetOps (decoder : Token → Option H → E → List S × H)
    (lsm : List S → List S) (enc_output : E) (beam_width : ℕ) :
    BeamOps S (S × List Token × Option H) :=
  ⟨fun p => p.1, fun p => p.2.1, basenetExpand decoder lsm enc_output beam_width⟩

/-- `Seq2SeqLMFusion.basenet_inference` (source lines 467-541), returning
the final `top_pred_list` (the `heuristics=True` return value). The
encoder is the opaque trained `self.encoder`. -/
def basenet_inference (encoder : List Token → E × H)
    (decoder : Token → Option H → E → List S × H) (lsm : List S → List S)
    (pass_enc2dec_hid : Bool) (src : List Token)
    (beam_width max_tgt_sz : ℕ) : List (S × List Token × Option H) :=
  let start_tok := src.headI
  let end_tok := src.getLastI
  let eo := encoder src
  let init_dec_hidden : Option H := if pass_enc2dec_hid then some eo.2 else none
  beamLoop (basenetOps decoder lsm eo.1 beam_width) end_tok beam_width
    max_tgt_sz [((0 : S), [start_tok], init_dec_hidden)]

/-- `pred_tnsr_list = [t[1] for t in top_pred_list]` (source lines
536-541): the sequences returned when `heuristics=False`. -/
def basenet_inference_seqs (encoder : List Token → E × H)
    (decoder : Token → Option H → E → List S × H) (lsm : List S → List S)
    (pass_enc2dec_hid : Bool) (src : List Token)
    (beam_width max_tgt_sz : ℕ) : List (List Token) :=
  (basenet_inference encoder decoder lsm pass_enc2dec_hid src beam_width
    max_tgt_sz).map (fun p => p.2.1)

end Basenet

section Shallow

variable {S E Dh Lh : Type} [LinearOrder S] [Zero S] [Add S]

/-- Expansion body of `shallow_fuse_inference` for a live hypothesis
(source lines 620-644): decoder step and LM step are both advanced from
their separately stored states, both logit vectors are `log_softmax`ed,
summed elementwise (`shl_output = dec_output + lm_output`), and the top
`beam_width` entries of the sum extend the hypothesis, carrying the two
updated states separately. -/
def shallowExpand (decoder : Token → Option Dh → E → List S × Dh)
    (lm_decoding : Token → Option Lh → List S × Lh)
    (lsm : List S → List S) (enc_output : E) (beam_width : ℕ)
    (p : S × List Token × Option Dh × Option Lh) :
    List (S × List Token × Option Dh × Option Lh) :=
  let d := decoder p.2.1.getLastI p.2.2.1 enc_output
  let l := lm_decoding p.2.1.getLastI p.2.2.2
  let shl_output := List.zipWith (· + ·) (lsm d.1) (lsm l.1)
  (topk beam_width shl_output).map
    (fun vi => (p.1 + vi.1, p.2.1 ++ [vi.2], some d.2, some l.2))

/-- `BeamOps` instance of `shallow_fuse_inference`; hypothesis tuples are
`(Σ log_softmax, sequence, dec_hidden, lm_hidden)` (source lines 607-611). -/
def shallowOps (decoder : Token → Option Dh → E → List S × Dh)
    (lm_decoding : Token → Option Lh → List S × Lh)
    (lsm : List S → List S) (enc_output : E) (beam_width : ℕ) :
    BeamOps S (S × List Token × Option Dh × Option Lh) :=
  ⟨fun p => p.1, fun p => p.2.1,
    shallowExpand decoder lm_decoding lsm enc_output beam_width⟩

/-- `Seq2SeqLMFusion.shallow_fuse_inference` (source lines 578-655),
kept as the full hypothesis list before the final projection to
sequences. -/
def shallow_fuse_inference (encoder : List Token → E × Dh)
    (decoder : Token → Option Dh → E → List S × Dh)
    (lm_decoding : Token → Option Lh → List S × Lh)
    (lsm : List S → List S) (pass_enc2dec_hid : Bool) (src : List Token)
    (beam_width max_tgt_sz : ℕ) :
    List (S × List Token × Option Dh × Option Lh) :=
  let start_tok := src.headI
  let end_tok := src.getLastI
  let eo := encoder src
  let init_dec_hidden : Option Dh := if pass_enc2dec_hid then some eo.2 else none
  beamLoop (shallowOps decoder lm_decoding lsm eo.1 beam_width) end_tok
    beam_width max_tgt_sz [((0 : S), [start_tok], init_dec_hidden, none)]

/-- `pred_tnsr_list = [t[1] for t in top_pred_list]` (source lines 653-655). -/
def shallow_fuse_inference_seqs (encoder : List Token → E × Dh)
    (decoder : Token → Option Dh → E → List S × Dh)
    (lm_decoding : Token → Option Lh → List S × Lh)
    (lsm : List S → List S) (pass_enc2dec_hid : Bool) (src : List Token)
    (beam_width max_tgt_sz : ℕ) : List (List Token) :=
  (shallow_fuse_inference encoder decoder lm_decoding lsm pass_enc2dec_hid
    src beam_width max_tgt_sz).map (fun p => p.2.1)

end Shallow

section Deep

/-- Dual recurrent state of an LSTM cell, `(h_n, c_n)`, each a stack of
per-layer vectors; the source indexes it as `hidden[0]` / `hidden[1]`. -/
abbrev LSTMState (S : Type) := List (List S) × List (List S)

variable {S E : Type} [LinearOrder S] [Zero S] [Add S] [Mul S]

/-- Expansion body of `deep_fuse_inference` for a live hypothesis (source
lines 756-782): both step functions run in hidden-only mode; the gated LM
last-layer hidden `lm_ctrl(lm_hidden[0][-1]) * lm_hidden[0][-1]` is
concatenated with the decoder last-layer hidden `dec_hidden[0][-1]`,
projected by `dffc`, `log_softmax`ed, and the top `beam_width` entries
extend the hypothesis. -/
def deepExpand (dec_get_hidden : Token → Option (LSTMState S) → E → LSTMState S)
    (lm_get_hidden : Token → Option (LSTMState S) → LSTMState S)
    (lm_ctrl dffc : List S → List S) (lsm : List S → List S)
    (enc_output : E) (beam_width : ℕ)
    (p : S × List Token × Option (LSTMState S) × Option (LSTMState S)) :
    List (S × List Token × Option (LSTMState S) × Option (LSTMState S)) :=
  let dec_hidden := dec_get_hidden p.2.1.getLastI p.2.2.1 enc_output
  let lm_hidden := lm_get_hidden p.2.1.getLastI p.2.2.2
  let lm_last := lm_hidden.1.getLastI
  let lm_gated_hidden := List.zipWith (· * ·) (lm_ctrl lm_last) lm_last
  let fused_hidden := dec_hidden.1.getLastI ++ lm_gated_hidden
  let fused_output := lsm (dffc fused_hidden)
  (topk beam_width fused_output).map
    (fun vi => (p.1 + vi.1, p.2.1 ++ [vi.2], some dec_hidden, some lm_hidden))

/-- `BeamOps` instance of `deep_fuse_inference` (source lines 743-747). -/
def deepOps (dec_get_hidden : Token → Option (LSTMState S) → E → LSTMState S)
    (lm_get_hidden : Token → Option (LSTMState S) → LSTMState S)
    (lm_ctrl dffc : List S → List S) (lsm : List S → List S)
    (enc_output : E) (beam_width : ℕ) :
    BeamOps S (S × List Token × Option (LSTMState S) × Option (LSTMState S)) :=
  ⟨fun p => p.1, fun p => p.2.1,
    deepExpand dec_get_hidden lm_get_hidden lm_ctrl dffc lsm enc_output beam_width⟩

/-- `Seq2SeqLMFusion.deep_fuse_inference` (source lines 715-793), kept as
the full hypothesis list. -/
def deep_fuse_inference (encoder : List Token → E × LSTMState S)
    (dec_get_hidden : Token → Option (LSTMState S) → E → LSTMState S)
    (lm_get_hidden : Token → Option (LSTMState S) → LSTMState S)
    (lm_ctrl dffc : List S → List S) (lsm : List S → List S)
    (pass_enc2dec_hid : Bool) (src : List Token) (beam_width max_tgt_sz : ℕ) :
    List (S × List Token × Option (LSTMState S) × Option (LSTMState S)) :=
  let start_tok := src.headI
  let end_tok := src.getLastI
  let eo := encoder src
  let init_dec_hidden : Option (LSTMState S) :=
    if pass_enc2dec_hid then some eo.2 else none
  beamLoop (deepOps dec_get_hidden lm_get_hidden lm_ctrl dffc lsm eo.1 beam_width)
    end_tok beam_width max_tgt_sz [((0 : S), [start_tok], init_dec_hidden, none)]

/-- `pred_tnsr_list = [t[1] for t in top_pred_list]` (source lines 791-793). -/
def deep_fuse_inference_seqs (encoder : List Token → E × LSTMState S)
    (dec_get_hidden : Token → Option (LSTMState S) → E → LSTMState S)
    (lm_get_hidden : Token → Option (LSTMState S) → LSTMState S)
    (lm_ctrl dffc : List S → List S) (lsm : List S → List S)
    (pass_enc2dec_hid : Bool) (src : List Token) (beam_width max_tgt_sz : ℕ) :
    List (List Token) :=
  (deep_fuse_inference encoder dec_get_hidden lm_get_hidden lm_ctrl dffc lsm
    pass_enc2dec_hid src beam_width max_tgt_sz).map (fun p => p.2.1)

end Deep

section Heuristics

variable {S Lh : Type} [Zero S] [Add S] [Div S] [NatCast S]

/-- The scoring loop of `lm_heuristics` (source lines 555-571): walk the
supplied tokens `src[1:]`, run the LM step on the previous token,
accumulate `log_softmax(dec_output)[0][src[t]]`, and stop right after the
supplied next token equals `end_tok`. Token ids are assumed in range of
the vocabulary (the source would raise IndexError otherwise); the lookup
uses default 0 out of range. -/
def lmLogProbsGo (lm_decoding : Token → Option Lh → List S × Lh)
    (lsm : List S → List S) (end_tok : Token) :
    List Token → Token → Option Lh → List S
  | [], _, _ => []
  | tok :: rest, dec_input, dec_hidden =>
    let d := lm_decoding dec_input dec_hidden
    ((lsm d.1).getD tok 0) ::
      (if tok = end_tok then []
       else lmLogProbsGo lm_decoding lsm end_tok rest tok (some d.2))

/-- `log_probs` as accumulated by `lm_heuristics` on `src`: the loop
ranges over `range(1, max_tgt_sz)` after the rebinding
`max_tgt_sz = len(src)` (source line 552), i.e. exactly over `src[1:]`,
starting from `dec_input = src[0]` and `dec_hidden = None`. -/
def lmLogProbs (lm_decoding : Token → Option Lh → List S × Lh)
    (lsm : List S → List S) (src : List Token) : List S :=
  lmLogProbsGo lm_decoding lsm src.getLastI (src.drop 1) src.headI none

/-- `Seq2SeqLMFusion.lm_heuristics` (source lines 543-575). The
`max_tgt_sz` parameter is rebound to `len(src)` on line 552 before any
use, so it never influences the result. The final
`sum(log_probs) / len(log_probs)` raises ZeroDivisionError when no step
was scored; that failure is modelled as `none`. -/
def lm_heuristics (lm_decoding : Token → Option Lh → List S × Lh)
    (lsm : List S → List S) (src : List Token) (max_tgt_sz : ℕ) : Option S :=
  let log_probs := lmLogProbs lm_decoding lsm src
  if log_probs.length = 0 then none
  else some (log_probs.sum / (log_probs.length : S))

end Heuristics

section AttentionDecoder

/-- Elementwise sum of two vectors (tensor `+` on equally shaped tensors). -/
def vadd (a b : List ℝ) : List ℝ := List.zipWith (· + ·) a b

/-- Elementwise `torch.tanh`. -/
noncomputable def vtanh (v : List ℝ) : List ℝ := v.map Real.tanh

/-- Scalar times vector (broadcast multiply). -/
def smul (c : ℝ) (v : List ℝ) : List ℝ := v.map (fun x => c * x)

/-- `torch.sum` across the leading axis of a stack of equally long
vectors: the elementwise sum of the stacked vectors (the source uses it
as `torch.sum(hidden, axis=0)` on the layer axis, line 135, and as
`torch.sum(context_vector, dim=1)` on the position axis, line 148). -/
def stackSum : List (List ℝ) → List ℝ
  | [] => []
  | [h] => h
  | h :: t => vadd h (stackSum t)

/-- `torch.softmax` along a vector of scores: `exp` of each entry divided
by the sum of all the `exp`s. -/
noncomputable def softmax (v : List ℝ) : List ℝ :=
  v.map (fun z => Real.exp z / (v.map Real.exp).sum)

/-- `Decoder.attention` (source lines 124-155), for one batch element.
`W1`, `W2` are the learned linear layers applied to a vector, `V` the
learned projection to a scalar; `x` is the embedded current-step token,
`hidden` the stack of per-layer recurrent state vectors, `enc_output` the
per-position encoder output vectors. Returns
`(attend_out, attention_weights)` where `attend_out` is the context
vector concatenated with `x`. -/
noncomputable def attention (W1 W2 : List ℝ → List ℝ) (V : List ℝ → ℝ)
    (x : List ℝ) (hidden : List (List ℝ)) (enc_output : List (List ℝ)) :
    List ℝ × List ℝ :=
  let hidden_with_time_axis := stackSum hidden
  let score := enc_output.map (fun e => vtanh (vadd (W1 e) (W2 hidden_with_time_axis)))
  let attention_weights := softmax (score.map V)
  let context_vector := stackSum (List.zipWith smul attention_weights enc_output)
  (context_vector ++ x, attention_weights)

/-- Recurrent state of a decoder cell: a per-layer stack for GRU, a
`(h_n, c_n)` pair of per-layer stacks for LSTM (spec §9's
`Simple | Paired` variant; the source distinguishes the cases via
`self.dec_rnn_type` and tuple indexing). -/
inductive RState where
  | simple (h : List (List ℝ))
  | paired (h c : List (List ℝ))

/-- The part of `Decoder.forward` / `Decoder.get_hidden` shared by both
paths once the attention-conditioning stack `hid_for_att` is fixed:
embed the token, optionally attend, and advance the recurrent cell
(source lines 177-190 and 220-232). Returns
`(rnn output, new hidden, attention weights)`. -/
noncomputable def decoder_step_core (embedding : Token → List ℝ)
    (dec_rnn : List ℝ → Option RState → List ℝ × RState)
    (W1 W2 : List ℝ → List ℝ) (V : List ℝ → ℝ) (use_attention : Bool)
    (x : Token) (hidden : Option RState) (enc_output : List (List ℝ))
    (hid_for_att : List (List ℝ)) : List ℝ × RState × List ℝ :=
  let xe := embedding x
  let xa := if use_attention then attention W1 W2 V xe hid_for_att enc_output
            else (xe, [])
  let r := dec_rnn xa.1 hidden
  (r.1, r.2, xa.2)

/-- `Decoder.forward` (source lines 157-198): the distribution-producing
decode path. Raises (modelled `none`) when `hidden is None` and attention
is off (lines 163-164); conditions attention on the zero stack when
`hidden is None`, on `hidden[1]` (the cell part `c_n`) for an LSTM state,
and on the whole state for a GRU state (lines 168-175); finally applies
the learned projection `fc` to the rnn output. -/
noncomputable def decoder_forward (embedding : Token → List ℝ)
    (dec_rnn : List ℝ → Option RState → List ℝ × RState)
    (fc : List ℝ → List ℝ) (W1 W2 : List ℝ → List ℝ) (V : List ℝ → ℝ)
    (use_attention : Bool) (dec_layers dec_hidden_dim : ℕ)
    (x : Token) (hidden : Option RState) (enc_output : List (List ℝ)) :
    Option (List ℝ × RState × List ℝ) :=
  if hidden.isNone && !use_attention then none
  else
    let hid_for_att : List (List ℝ) :=
      match hidden with
      | none => List.replicate dec_layers (List.replicate dec_hidden_dim 0)
      | some (.paired _ c) => c
      | some (.simple h) => h
    let r := decoder_step_core embedding dec_rnn W1 W2 V use_attention
      x hidden enc_output hid_for_att
    some (fc r.1, r.2.1, r.2.2)

/-- `Decoder.get_hidden` (source lines 201-234): the hidden-only path
used by deep fusion. Identical to `Decoder.forward` except that no
exception is raised, no final projection is applied, and the attention
conditioning for an LSTM state reads `hidden[0]` (the hidden part `h_n`,
lines 215-216) instead of `hidden[1]`. -/
noncomputable def decoder_get_hidden (embedding : Token → List ℝ)
    (dec_rnn : List ℝ → Option RState → List ℝ × RState)
    (W1 W2 : List ℝ → List ℝ) (V : List ℝ → ℝ)
    (use_attention : Bool) (dec_layers dec_hidden_dim : ℕ)
    (x : Token) (hidden : Option RState) (enc_output : List (List ℝ)) :
    RState :=
  let hid_for_att : List (List ℝ) :=
    match hidden with
    | none => List.replicate dec_layers (List.replicate dec_hidden_dim 0)
    | some (.paired h _) => h
    | some (.simple h) => h
  (decoder_step_core embedding dec_rnn W1 W2 V use_attention
    x hidden enc_output hid_for_att).2.1

end AttentionDecoder

section Examples

/-- Toy opaque encoder: encoder output and final state carry no data. -/
def exEncoder : List Token → Unit × Unit := fun _ => ((), ())

/-- Toy decoder step over a two-token vocabulary with uniform logits. -/
def exDecoder : Token → Option Unit → Unit → List ℤ × Unit := fun _ _ _ => ([0, 0], ())

/-- Toy decoder step over a two-token vocabulary preferring token 1. -/
def exDecoder2 : Token → Option Unit → Unit → List ℤ × Unit := fun _ _ _ => ([0, 1], ())

/-- Toy LM step over a two-token vocabulary with uniform logits. -/
def exLM : Token → Option Unit → List ℤ × Unit := fun _ _ => ([0, 0], ())

/-- Identity stand-in for `log_softmax` over integer scores, used when a
concrete run only needs the combined score vector. -/
def exVec : List ℤ → List ℤ := id

/-- Toy encoder for the deep-fusion path. -/
def exEncoderDeep : List Token → Unit × LSTMState ℤ := fun _ => ((), ([[0]], [[0]]))

/-- Toy hidden-only decoder step for the deep-fusion path. -/
def exDecGetHidden : Token → Option (LSTMState ℤ) → Unit → LSTMState ℤ :=
  fun _ _ _ => ([[0]], [[0]])

/-- Toy hidden-only LM step for the deep-fusion path. -/
def exLMGetHidden : Token → Option (LSTMState ℤ) → LSTMState ℤ := fun _ _ => ([[0]], [[0]])

/-- Identity stand-in for `log_softmax` over rational scores. -/
def exVecQ : List ℚ → List ℚ := id

/-- LM step whose post-`log_softmax` score is −1 for every token of a
three-token vocabulary (the spec's fixed-score LM scenario, with the
`log_softmax` stand-in `exVecQ`). -/
def exLMneg : Token → Option Unit → List ℚ × Unit := fun _ _ => ([-1, -1, -1], ())

/-- LM step counting its invocations in its recurrent state: the step
score at the n-th invocation is −(n+1), so early stopping is observable
in the returned mean. -/
def exLMstep : Token → Option ℕ → List ℚ × ℕ :=
  fun _ h =>
    ([-((h.getD 0 : ℚ) + 1), -((h.getD 0 : ℚ) + 1), -((h.getD 0 : ℚ) + 1)],
      h.getD 0 + 1)

end Examples

/-! ## Properties of the stable descending sort -/

section SortingLemmas

variable {α S : Type} [LinearOrder S]

theorem mem_insertDesc {le : α → α → Bool} {a x : α} {l : List α} :
    x ∈ insertDesc le a l ↔ x = a ∨ x ∈ l := by
  induction l with
  | nil => simp [insertDesc]
  | cons b t ih =>
    by_cases h : le a b
    · simp only [insertDesc, h, if_true, List.mem_cons]
    · simp only [insertDesc, h, if_false, List.mem_cons, ih, Bool.false_eq_true]
      tauto

theorem mem_sortDesc {le : α → α → Bool} {x : α} {l : List α} :
    x ∈ sortDesc le l ↔ x ∈ l := by
  induction l with
  | nil => simp [sortDesc]
  | cons a t ih => simp [sortDesc, mem_insertDesc, ih]

theorem length_insertDesc {le : α → α → Bool} (a : α) (l : List α) :
    (insertDesc le a l).length = l.length + 1 := by
  induction l with
  | nil => rfl
  | cons b t ih =>
    by_cases h : le a b
    · simp [insertDesc, h]
    · simp [insertDesc, h, ih]

theorem length_sortDesc {le : α → α → Bool} (l : List α) :
    (sortDesc le l).length = l.length := by
  induction l with
  | nil => rfl
  | cons a t ih => simp [sortDesc, length_insertDesc, ih]

theorem pairwise_insertDesc_key (k : α → S) (a : α) {l : List α}
    (h : l.Pairwise (fun x y => k y ≤ k x)) :
    (insertDesc (keyLE k) a l).Pairwise (fun x y => k y ≤ k x) := by
  induction l with
  | nil => simp [insertDesc]
  | cons b t ih =>
    rcases List.pairwise_cons.mp h with ⟨hb, ht⟩
    by_cases hab : k b ≤ k a
    · have : keyLE k a b = true := by simp [keyLE, hab]
      simp only [insertDesc, this, if_true]
      refine List.pairwise_cons.mpr ⟨?_, h⟩
      intro x hx
      rcases List.mem_cons.mp hx with rfl | hx
      · exact hab
      · exact le_trans (hb x hx) hab
    · have : keyLE k a b = false := by simp [keyLE, hab]
      simp only [insertDesc, this, if_false]
      refine List.pairwise_cons.mpr ⟨?_, ih ht⟩
      intro x hx
      rcases mem_insertDesc.mp hx with rfl | hx
      · exact le_of_lt (lt_of_not_le hab)
      · exact hb x hx

theorem pairwise_sortDesc_key (k : α → S) (l : List α) :
    (sortDesc (keyLE k) l).Pairwise (fun x y => k y ≤ k x) := by
  induction l with
  | nil => simp [sortDesc]
  | cons a t ih => exact pairwise_insertDesc_key k a ih

theorem filter_insertDesc_key (k : α → S) (q : S) (a : α) (l : List α) :
    (insertDesc (keyLE k) a l).filter (fun x => decide (k x = q)) =
      if k a = q then a :: l.filter (fun x => decide (k x = q))
      else l.filter (fun x => decide (k x = q)) := by
  induction l with
  | nil =>
    by_cases hq : k a = q <;> simp [insertDesc, List.filter, hq]
  | cons b t ih =>
    by_cases hab : k b ≤ k a
    · have hle : keyLE k a b = true := by simp [keyLE, hab]
      by_cases hq : k a = q <;> simp [insertDesc, hle, List.filter_cons, hq]
    · have hle : keyLE k a b = false := by simp [keyLE, hab]
      by_cases hq : k a = q
      · have hbq : ¬ (k b = q) := by
          intro hbq
          exact hab (le_of_eq (hq ▸ hbq))
        simp [insertDesc, hle, List.filter_cons, hbq, ih, hq]
      · by_cases hbq : k b = q <;>
          simp [insertDesc, hle, List.filter_cons, hbq, ih, hq]

theorem filter_sortDesc_key (k : α → S) (q : S) (l : List α) :
    (sortDesc (keyLE k) l).filter (fun x => decide (k x = q)) =
      l.filter (fun x => decide (k x = q)) := by
  induction l with
  | nil => rfl
  | cons a t ih =>
    by_cases hq : k a = q <;>
      simp [sortDesc, filter_insertDesc_key, hq, List.filter_cons, ih]

end SortingLemmas

/-! ## Generic properties of the beam-search loop -/

section BeamLemmas

variable {S α : Type} [LinearOrder S]

theorem length_beamStep_le (ops : BeamOps S α) (e : Token) (bw : ℕ)
    (top : List α) : (beamStep ops e bw top).length ≤ bw :=
  List.length_take_le _ _

theorem beamLoop_length_le (ops : BeamOps S α) (e : Token) (bw : ℕ) :
    ∀ (fuel : ℕ) (top : List α), 1 ≤ fuel →
      (beamLoop ops e bw fuel top).length ≤ bw
  | 0, _, h => absurd h (by omega)
  | fuel + 1, top, _ => by
    simp only [beamLoop]
    by_cases hend : allEnded ops e bw (beamStep ops e bw top) = true
    · simp only [hend, if_true]
      exact length_beamStep_le ops e bw top
    · simp only [hend, if_false]
      cases fuel with
      | zero => exact length_beamStep_le ops e bw top
      | succ m =>
        exact beamLoop_length_le ops e bw (m + 1) _ (Nat.succ_le_succ (Nat.zero_le m))

theorem mem_of_mem_beamStep {ops : BeamOps S α} {e : Token} {bw : ℕ}
    {top : List α} {q : α} (h : q ∈ beamStep ops e bw top) :
    q ∈ candList ops e top :=
  mem_sortDesc.mp (List.mem_of_mem_take h)

theorem head_inv_beamStep {ops : BeamOps S α} {e : Token} {bw : ℕ} {s : Token}
    (hexp : ∀ p q, q ∈ ops.expand p → (ops.seq p).head? = some s →
      (ops.seq q).head? = some s)
    {top : List α} (htop : ∀ p ∈ top, (ops.seq p).head? = some s) :
    ∀ q ∈ beamStep ops e bw top, (ops.seq q).head? = some s := by
  intro q hq
  obtain ⟨p, hp, hq'⟩ := List.mem_flatMap.mp (mem_of_mem_beamStep hq)
  unfold hypCands at hq'
  by_cases hpe : (ops.seq p).getLastI = e
  · rw [if_pos hpe] at hq'
    rw [List.mem_singleton.mp hq']
    exact htop p hp
  · rw [if_neg hpe] at hq'
    exact hexp p q hq' (htop p hp)

theorem beamLoop_head_inv {ops : BeamOps S α} {e : Token} {bw : ℕ} {s : Token}
    (hexp : ∀ p q, q ∈ ops.expand p → (ops.seq p).head? = some s →
      (ops.seq q).head? = some s) :
    ∀ (fuel : ℕ) (top : List α), (∀ p ∈ top, (ops.seq p).head? = some s) →
      ∀ q ∈ beamLoop ops e bw fuel top, (ops.seq q).head? = some s
  | 0, top, htop => htop
  | fuel + 1, top, htop => by
    simp only [beamLoop]
    by_cases hend : allEnded ops e bw (beamStep ops e bw top) = true
    · simp only [hend, if_true]
      exact head_inv_beamStep hexp htop
    · simp only [hend, if_false]
      exact beamLoop_head_inv hexp fuel _ (head_inv_beamStep hexp htop)

theorem beamStep_terminated_singleton {ops : BeamOps S α} {e : Token} {bw : ℕ}
    {p : α} (hp : (ops.seq p).getLastI = e) (hbw : 1 ≤ bw) :
    beamStep ops e bw [p] = [p] := by
  unfold beamStep pruneBeam candList
  have h1 : [p].flatMap (hypCands ops e) = [p] := by
    simp [hypCands, hp]
  rw [h1]
  cases bw with
  | zero => exact absurd hbw (by omega)
  | succ n => simp [sortDesc, insertDesc]

theorem beamLoop_terminated_singleton {ops : BeamOps S α} {e : Token} {bw : ℕ}
    {p : α} (hp : (ops.seq p).getLastI = e) (hbw : 1 ≤ bw) :
    ∀ fuel : ℕ, beamLoop ops e bw fuel [p] = [p]
  | 0 => rfl
  | fuel + 1 => by
    simp only [beamLoop, beamStep_terminated_singleton hp hbw]
    by_cases hend : allEnded ops e bw [p] = true
    · simp only [hend, if_true]
    · simp only [hend, if_false]
      exact beamLoop_terminated_singleton hp hbw fuel

theorem seqs_terminated_singleton (ops : BeamOps S α) (e : Token)
    (bw fuel : ℕ) (p : α) (hp : (ops.seq p).getLastI = e) (hbw : 1 ≤ bw) :
    (beamLoop ops e bw fuel [p]).map ops.seq = [ops.seq p] := by
  rw [beamLoop_terminated_singleton hp hbw]
  rfl

theorem beamStep_bw_zero (ops : BeamOps S α) (e : Token) (top : List α) :
    beamStep ops e 0 top = [] := by
  simp [beamStep, pruneBeam]

theorem beamLoop_bw_zero (ops : BeamOps S α) (e : Token) :
    ∀ (fuel : ℕ) (top : List α), 1 ≤ fuel → beamLoop ops e 0 fuel top = []
  | 0, _, h => absurd h (by omega)
  | fuel + 1, top, _ => by
    simp only [beamLoop, beamStep_bw_zero]
    have : allEnded ops e 0 ([] : List α) = true := by
      simp [allEnded]
    simp [this]

end BeamLemmas

/-! ## Claims about the pruning step -/

/-- C2: after every pruning step of the beam search loop
(`cur_pred_list.sort(key=_avg_score, reverse=True)` followed by
`top_pred_list = cur_pred_list[:beam_width]`), the kept beam is sorted in
descending order of cumulative score, and for every score value the kept
hypotheses of that score are an initial segment, in order, of the
candidates of that score in `cur_pred_list` (stable tie-break by
insertion order into the candidate list). This holds for every step of
every decode call, whose iterations are exactly `beamStep`. -/
theorem claim_C2_pruned_beam_sorted_stable {S α : Type} [LinearOrder S]
    (ops : BeamOps S α) (end_tok : Token) (beam_width : ℕ) (top : List α) :
    (beamStep ops end_tok beam_width top).Pairwise
      (fun a b => ops.score b ≤ ops.score a)
    ∧ ∀ q : S,
      (beamStep ops end_tok beam_width top).filter (fun p => decide (ops.score p = q)) <+:
        (candList ops end_tok top).filter (fun p => decide (ops.score p = q)) := by
  constructor
  · exact List.Pairwise.sublist (List.take_sublist _ _)
      (pairwise_sortDesc_key ops.score (candList ops end_tok top))
  · intro q
    have h1 : beamStep ops end_tok beam_width top <+:
        sortDesc (scoreLE ops) (candList ops end_tok top) :=
      List.take_prefix _ _
    have h2 := h1.filter (fun p => decide (ops.score p = q))
    rwa [show scoreLE ops = keyLE ops.score from rfl,
      filter_sortDesc_key ops.score q (candList ops end_tok top)] at h2

/-- C4: a hypothesis whose sequence already ends in the End token is
carried into the candidate set unchanged (the candidate contribution of
`p` is literally `[p]`, for any expansion function, so neither the
decoder nor the LM step is invoked on it), and it is a member of the
candidate list of the step. -/
theorem claim_C4_terminated_carry {S α : Type} [LinearOrder S]
    (score : α → S) (seq : α → List Token) (expand : α → List α)
    (end_tok : Token) (top : List α) (p : α)
    (hp : (seq p).getLastI = end_tok) (hmem : p ∈ top) :
    hypCands ⟨score, seq, expand⟩ end_tok p = [p]
    ∧ p ∈ candList ⟨score, seq, expand⟩ end_tok top := by
  have h1 : hypCands ⟨score, seq, expand⟩ end_tok p = [p] := by
    unfold hypCands
    exact if_pos hp
  refine ⟨h1, ?_⟩
  exact List.mem_flatMap.mpr ⟨p, hmem, by rw [h1]; exact List.mem_singleton.mpr rfl⟩

/-- Witness for C4 at a concrete terminated hypothesis: sequence `[0, 1]`
with End token 1, carried unchanged through a step of the basenet search. -/
theorem claim_C4_witness :
    (([0, 1] : List Token).getLastI = 1)
    ∧ (((0 : ℤ), ([0, 1] : List Token), (none : Option Unit)) ∈
        [((0 : ℤ), ([0, 1] : List Token), (none : Option Unit))])
    ∧ (hypCands ⟨fun p => p.1, fun p => p.2.1, basenetExpand exDecoder exVec () 2⟩ 1
        ((0 : ℤ), ([0, 1] : List Token), (none : Option Unit)) =
        [((0 : ℤ), ([0, 1] : List Token), (none : Option Unit))]
      ∧ ((0 : ℤ), ([0, 1] : List Token), (none : Option Unit)) ∈
        candList ⟨fun p => p.1, fun p => p.2.1, basenetExpand exDecoder exVec () 2⟩ 1
          [((0 : ℤ), ([0, 1] : List Token), (none : Option Unit))]) :=
  ⟨by decide, by simp,
    claim_C4_terminated_carry (fun p => p.1) (fun p => p.2.1)
      (basenetExpand exDecoder exVec () 2) 1
      [((0 : ℤ), ([0, 1] : List Token), (none : Option Unit))]
      ((0 : ℤ), ([0, 1] : List Token), (none : Option Unit))
      (by decide) (by simp)⟩

theorem basenetExpand_head {S E H : Type} [LinearOrder S] [Zero S] [Add S]
    (decoder : Token → Option H → E → List S × H) (lsm : List S → List S)
    (eo : E) (bw : ℕ) (s : Token) (p q : S × List Token × Option H)
    (hq : q ∈ basenetExpand decoder lsm eo bw p) (hp : p.2.1.head? = some s) :
    q.2.1.head? = some s := by
  obtain ⟨vi, _, rfl⟩ := List.mem_map.mp hq
  simp [List.head?_append, hp]

theorem shallowExpand_head {S E Dh Lh : Type} [LinearOrder S] [Zero S] [Add S]
    (decoder : Token → Option Dh → E → List S × Dh)
    (lm_decoding : Token → Option Lh → List S × Lh) (lsm : List S → List S)
    (eo : E) (bw : ℕ) (s : Token) (p q : S × List Token × Option Dh × Option Lh)
    (hq : q ∈ shallowExpand decoder lm_decoding lsm eo bw p)
    (hp : p.2.1.head? = some s) : q.2.1.head? = some s := by
  obtain ⟨vi, _, rfl⟩ := List.mem_map.mp hq
  simp [List.head?_append, hp]

theorem deepExpand_head {S E : Type} [LinearOrder S] [Zero S] [Add S] [Mul S]
    (dec_get_hidden : Token → Option (LSTMState S) → E → LSTMState S)
    (lm_get_hidden : Token → Option (LSTMState S) → LSTMState S)
    (lm_ctrl dffc lsm : List S → List S) (eo : E) (bw : ℕ) (s : Token)
    (p q : S × List Token × Option (LSTMState S) × Option (LSTMState S))
    (hq : q ∈ deepExpand dec_get_hidden lm_get_hidden lm_ctrl dffc lsm eo bw p)
    (hp : p.2.1.head? = some s) : q.2.1.head? = some s := by
  obtain ⟨vi, _, rfl⟩ := List.mem_map.mp hq
  simp [List.head?_append, hp]

/-- C1: for every input sequence and all `beam_width ≥ 1`,
`max_tgt_sz ≥ 1`, each of the three decode calls returns at most
`beam_width` sequences, and every returned sequence starts with the Start
token `src[0]`. -/
theorem claim_C1_beam_bound_and_start
    {S E H E2 Dh Lh E3 : Type} [LinearOrder S] [Zero S] [Add S] [Mul S]
    (encoder : List Token → E × H) (decoder : Token → Option H → E → List S × H)
    (lsm : List S → List S) (p2d : Bool)
    (encoder2 : List Token → E2 × Dh) (decoder2 : Token → Option Dh → E2 → List S × Dh)
    (lm_decoding : Token → Option Lh → List S × Lh) (lsm2 : List S → List S)
    (p2d2 : Bool)
    (encoder3 : List Token → E3 × LSTMState S)
    (dec_get_hidden : Token → Option (LSTMState S) → E3 → LSTMState S)
    (lm_get_hidden : Token → Option (LSTMState S) → LSTMState S)
    (lm_ctrl dffc lsm3 : List S → List S) (p2d3 : Bool)
    (src : List Token) (beam_width max_tgt_sz : ℕ)
    (hbw : 1 ≤ beam_width) (hmts : 1 ≤ max_tgt_sz) (hsrc : src ≠ []) :
    ((basenet_inference_seqs encoder decoder lsm p2d src beam_width max_tgt_sz).length ≤ beam_width
      ∧ ∀ t ∈ basenet_inference_seqs encoder decoder lsm p2d src beam_width max_tgt_sz,
          t.head? = some src.headI)
    ∧ ((shallow_fuse_inference_seqs encoder2 decoder2 lm_decoding lsm2 p2d2 src beam_width max_tgt_sz).length ≤ beam_width
      ∧ ∀ t ∈ shallow_fuse_inference_seqs encoder2 decoder2 lm_decoding lsm2 p2d2 src beam_width max_tgt_sz,
          t.head? = some src.headI)
    ∧ ((deep_fuse_inference_seqs encoder3 dec_get_hidden lm_get_hidden lm_ctrl dffc lsm3 p2d3 src beam_width max_tgt_sz).length ≤ beam_width
      ∧ ∀ t ∈ deep_fuse_inference_seqs encoder3 dec_get_hidden lm_get_hidden lm_ctrl dffc lsm3 p2d3 src beam_width max_tgt_sz,
          t.head? = some src.headI) := by
  refine ⟨⟨?_, ?_⟩, ⟨?_, ?_⟩, ⟨?_, ?_⟩⟩
  · simp only [basenet_inference_seqs, basenet_inference, List.length_map]
    exact beamLoop_length_le _ _ _ _ _ hmts
  · intro t ht
    simp only [basenet_inference_seqs, basenet_inference, List.mem_map] at ht
    obtain ⟨q, hq, rfl⟩ := ht
    exact beamLoop_head_inv
      (basenetExpand_head decoder lsm (encoder src).1 beam_width src.headI)
      max_tgt_sz _ (by simp [basenetOps]) q hq
  · simp only [shallow_fuse_inference_seqs, shallow_fuse_inference, List.length_map]
    exact beamLoop_length_le _ _ _ _ _ hmts
  · intro t ht
    simp only [shallow_fuse_inference_seqs, shallow_fuse_inference, List.mem_map] at ht
    obtain ⟨q, hq, rfl⟩ := ht
    exact beamLoop_head_inv
      (shallowExpand_head decoder2 lm_decoding lsm2 (encoder2 src).1 beam_width src.headI)
      max_tgt_sz _ (by simp [shallowOps]) q hq
  · simp only [deep_fuse_inference_seqs, deep_fuse_inference, List.length_map]
    exact beamLoop_length_le _ _ _ _ _ hmts
  · intro t ht
    simp only [deep_fuse_inference_seqs, deep_fuse_inference, List.mem_map] at ht
    obtain ⟨q, hq, rfl⟩ := ht
    exact beamLoop_head_inv
      (deepExpand_head dec_get_hidden lm_get_hidden lm_ctrl dffc lsm3 (encoder3 src).1 beam_width src.headI)
      max_tgt_sz _ (by simp [deepOps]) q hq

/-- Witness for C1 at a concrete input: `src = [0, 1]`, `beam_width = 2`,
`max_tgt_sz = 3`, with the toy components over integer scores. -/
theorem claim_C1_witness :
    ((1 : ℕ) ≤ 2) ∧ ((1 : ℕ) ≤ 3) ∧ (([0, 1] : List Token) ≠ [])
    ∧ (((basenet_inference_seqs exEncoder exDecoder exVec false [0, 1] 2 3).length ≤ 2
        ∧ ∀ t ∈ basenet_inference_seqs exEncoder exDecoder exVec false [0, 1] 2 3,
            t.head? = some ([0, 1] : List Token).headI)
      ∧ ((shallow_fuse_inference_seqs exEncoder exDecoder exLM exVec false [0, 1] 2 3).length ≤ 2
        ∧ ∀ t ∈ shallow_fuse_inference_seqs exEncoder exDecoder exLM exVec false [0, 1] 2 3,
            t.head? = some ([0, 1] : List Token).headI)
      ∧ ((deep_fuse_inference_seqs exEncoderDeep exDecGetHidden exLMGetHidden exVec exVec exVec false [0, 1] 2 3).length ≤ 2
        ∧ ∀ t ∈ deep_fuse_inference_seqs exEncoderDeep exDecGetHidden exLMGetHidden exVec exVec exVec false [0, 1] 2 3,
            t.head? = some ([0, 1] : List Token).headI)) :=
  ⟨by decide, by decide, by simp,
    claim_C1_beam_bound_and_start exEncoder exDecoder exVec false
      exEncoder exDecoder exLM exVec false
      exEncoderDeep exDecGetHidden exLMGetHidden exVec exVec exVec false
      [0, 1] 2 3 (by decide) (by decide) (by simp)⟩

/-- C7 counterexample: on input `[Start, End] = [0, 1]` (distinct Start
and End tokens) the beam is NOT immediately terminated with the trivial
one-token sequence: the search expands the initial hypothesis (the result
is not `[[0]]`), and the decoder influences the result (with the toy
decoder preferring token 1 the returned sequence is `[0, 1]`). -/
theorem claim_C7_counterexample :
    basenet_inference_seqs exEncoder exDecoder exVec false [0, 1] 1 2 ≠ [[0]]
    ∧ basenet_inference_seqs exEncoder exDecoder2 exVec false [0, 1] 1 2 = [[0, 1]] := by
  constructor
  · decide
  · decide

/-- C7 amended: a decode call yields a beam immediately in the terminated
state containing the trivial one-token sequence, with no decoder
expansion ever performed (the result does not depend on the step
functions), exactly when the first and last tokens of the input coincide
(e.g. the input `[Start]`); the input `[Start, End]` with `Start ≠ End`
does not have this property, since the initial hypothesis `[Start]` does
not end in `End` and is expanded. -/
theorem claim_C7_amended {S E H E2 Dh Lh E3 : Type}
    [LinearOrder S] [Zero S] [Add S] [Mul S]
    (encoder : List Token → E × H) (decoder : Token → Option H → E → List S × H)
    (lsm : List S → List S) (p2d : Bool)
    (encoder2 : List Token → E2 × Dh) (decoder2 : Token → Option Dh → E2 → List S × Dh)
    (lm_decoding : Token → Option Lh → List S × Lh) (lsm2 : List S → List S)
    (p2d2 : Bool)
    (encoder3 : List Token → E3 × LSTMState S)
    (dec_get_hidden : Token → Option (LSTMState S) → E3 → LSTMState S)
    (lm_get_hidden : Token → Option (LSTMState S) → LSTMState S)
    (lm_ctrl dffc lsm3 : List S → List S) (p2d3 : Bool)
    (src : List Token) (beam_width max_tgt_sz : ℕ)
    (hse : src.headI = src.getLastI) (hbw : 1 ≤ beam_width) :
    basenet_inference_seqs encoder decoder lsm p2d src beam_width max_tgt_sz
      = [[src.headI]]
    ∧ shallow_fuse_inference_seqs encoder2 decoder2 lm_decoding lsm2 p2d2 src
        beam_width max_tgt_sz = [[src.headI]]
    ∧ deep_fuse_inference_seqs encoder3 dec_get_hidden lm_get_hidden lm_ctrl
        dffc lsm3 p2d3 src beam_width max_tgt_sz = [[src.headI]] := by
  refine ⟨?_, ?_, ?_⟩
  · simp only [basenet_inference_seqs, basenet_inference]
    refine seqs_terminated_singleton
      (basenetOps decoder lsm (encoder src).1 beam_width) src.getLastI
      beam_width max_tgt_sz _ ?_ hbw
    exact hse
  · simp only [shallow_fuse_inference_seqs, shallow_fuse_inference]
    refine seqs_terminated_singleton
      (shallowOps decoder2 lm_decoding lsm2 (encoder2 src).1 beam_width)
      src.getLastI beam_width max_tgt_sz _ ?_ hbw
    exact hse
  · simp only [deep_fuse_inference_seqs, deep_fuse_inference]
    refine seqs_terminated_singleton
      (deepOps dec_get_hidden lm_get_hidden lm_ctrl dffc lsm3 (encoder3 src).1 beam_width)
      src.getLastI beam_width max_tgt_sz _ ?_ hbw
    exact hse

/-- Witness for the amended C7 at the degenerate input `[0]` (first and
last tokens coincide), `beam_width = 3`, `max_tgt_sz = 5`. -/
theorem claim_C7_amended_witness :
    (([0] : List Token).headI = ([0] : List Token).getLastI) ∧ ((1 : ℕ) ≤ 3)
    ∧ (basenet_inference_seqs exEncoder exDecoder exVec false [0] 3 5 = [[0]]
      ∧ shallow_fuse_inference_seqs exEncoder exDecoder exLM exVec false [0] 3 5 = [[0]]
      ∧ deep_fuse_inference_seqs exEncoderDeep exDecGetHidden exLMGetHidden exVec exVec exVec false [0] 3 5 = [[0]]) :=
  ⟨by decide, by decide,
    claim_C7_amended exEncoder exDecoder exVec false exEncoder exDecoder exLM
      exVec false exEncoderDeep exDecGetHidden exLMGetHidden exVec exVec exVec
      false [0] 3 5 (by decide) (by decide)⟩

/-- C8 counterexample: a decode call with `beam_width = 0` or with
`max_tgt_sz = 0` does not fail — no validation of either parameter
exists anywhere in the source — it returns a result: the empty list for
`beam_width = 0`, the trivial start-token sequence for `max_tgt_sz = 0`. -/
theorem claim_C8_counterexample :
    basenet_inference_seqs exEncoder exDecoder exVec false [0, 1] 0 5 = []
    ∧ basenet_inference_seqs exEncoder exDecoder exVec false [0, 1] 3 0 = [[0]] := by
  constructor
  · decide
  · decide

/-- C8 amended: the source performs no validation of `beam_width` or
`max_tgt_sz` and raises no configuration error; a decode call with
`beam_width = 0` returns the empty sequence list (the first pruning step
truncates the beam to nothing and the empty-beam early-stop test fires),
and a decode call with `max_tgt_sz = 0` skips the loop and returns the
one-element list holding the trivial start-token sequence. -/
theorem claim_C8_amended {S E H E2 Dh Lh E3 : Type}
    [LinearOrder S] [Zero S] [Add S] [Mul S]
    (encoder : List Token → E × H) (decoder : Token → Option H → E → List S × H)
    (lsm : List S → List S) (p2d : Bool)
    (encoder2 : List Token → E2 × Dh) (decoder2 : Token → Option Dh → E2 → List S × Dh)
    (lm_decoding : Token → Option Lh → List S × Lh) (lsm2 : List S → List S)
    (p2d2 : Bool)
    (encoder3 : List Token → E3 × LSTMState S)
    (dec_get_hidden : Token → Option (LSTMState S) → E3 → LSTMState S)
    (lm_get_hidden : Token → Option (LSTMState S) → LSTMState S)
    (lm_ctrl dffc lsm3 : List S → List S) (p2d3 : Bool)
    (src : List Token) (beam_width max_tgt_sz : ℕ)
    (hsrc : src ≠ []) (hmts : 1 ≤ max_tgt_sz) :
    (basenet_inference_seqs encoder decoder lsm p2d src 0 max_tgt_sz = []
      ∧ shallow_fuse_inference_seqs encoder2 decoder2 lm_decoding lsm2 p2d2 src 0 max_tgt_sz = []
      ∧ deep_fuse_inference_seqs encoder3 dec_get_hidden lm_get_hidden lm_ctrl dffc lsm3 p2d3 src 0 max_tgt_sz = [])
    ∧ (basenet_inference_seqs encoder decoder lsm p2d src beam_width 0 = [[src.headI]]
      ∧ shallow_fuse_inference_seqs encoder2 decoder2 lm_decoding lsm2 p2d2 src beam_width 0 = [[src.headI]]
      ∧ deep_fuse_inference_seqs encoder3 dec_get_hidden lm_get_hidden lm_ctrl dffc lsm3 p2d3 src beam_width 0 = [[src.headI]]) := by
  refine ⟨⟨?_, ?_, ?_⟩, ⟨?_, ?_, ?_⟩⟩
  · simp only [basenet_inference_seqs, basenet_inference]
    rw [beamLoop_bw_zero _ _ _ _ hmts]
    rfl
  · simp only [shallow_fuse_inference_seqs, shallow_fuse_inference]
    rw [beamLoop_bw_zero _ _ _ _ hmts]
    rfl
  · simp only [deep_fuse_inference_seqs, deep_fuse_inference]
    rw [beamLoop_bw_zero _ _ _ _ hmts]
    rfl
  · simp only [basenet_inference_seqs, basenet_inference]
    rfl
  · simp only [shallow_fuse_inference_seqs, shallow_fuse_inference]
    rfl
  · simp only [deep_fuse_inference_seqs, deep_fuse_inference]
    rfl

/-- Witness for the amended C8 at `src = [0, 1]`, `beam_width = 3`,
`max_tgt_sz = 5`. -/
theorem claim_C8_amended_witness :
    (([0, 1] : List Token) ≠ []) ∧ ((1 : ℕ) ≤ 5)
    ∧ ((basenet_inference_seqs exEncoder exDecoder exVec false [0, 1] 0 5 = []
        ∧ shallow_fuse_inference_seqs exEncoder exDecoder exLM exVec false [0, 1] 0 5 = []
        ∧ deep_fuse_inference_seqs exEncoderDeep exDecGetHidden exLMGetHidden exVec exVec exVec false [0, 1] 0 5 = [])
      ∧ (basenet_inference_seqs exEncoder exDecoder exVec false [0, 1] 3 0 = [[0]]
        ∧ shallow_fuse_inference_seqs exEncoder exDecoder exLM exVec false [0, 1] 3 0 = [[0]]
        ∧ deep_fuse_inference_seqs exEncoderDeep exDecGetHidden exLMGetHidden exVec exVec exVec false [0, 1] 3 0 = [[0]])) :=
  ⟨by simp, by decide,
    claim_C8_amended exEncoder exDecoder exVec false exEncoder exDecoder exLM
      exVec false exEncoderDeep exDecGetHidden exLMGetHidden exVec exVec exVec
      false [0, 1] 3 5 (by simp) (by decide)⟩

/-- C3: in shallow fusion, the per-token score vector handed to the
top-`beam_width` expansion (`shl_output`) is exactly the elementwise sum
of `log_softmax(decoder logits)` and `log_softmax(LM logits)` computed
from the hypothesis's own decoder and LM states, and every emitted
candidate carries the advanced decoder state and the advanced LM state
separately. -/
theorem claim_C3_shallow_fusion_scores {S E Dh Lh : Type}
    [LinearOrder S] [Zero S] [Add S]
    (decoder : Token → Option Dh → E → List S × Dh)
    (lm_decoding : Token → Option Lh → List S × Lh)
    (lsm : List S → List S) (enc_output : E) (beam_width : ℕ)
    (p : S × List Token × Option Dh × Option Lh)
    (d : List S × Dh) (l : List S × Lh)
    (hd : d = decoder p.2.1.getLastI p.2.2.1 enc_output)
    (hl : l = lm_decoding p.2.1.getLastI p.2.2.2) :
    (∀ (i : ℕ) (h1 : i < (lsm d.1).length) (h2 : i < (lsm l.1).length),
      (List.zipWith (· + ·) (lsm d.1) (lsm l.1))[i]? =
        some ((lsm d.1).get ⟨i, h1⟩ + (lsm l.1).get ⟨i, h2⟩))
    ∧ shallowExpand decoder lm_decoding lsm enc_output beam_width p =
        (topk beam_width (List.zipWith (· + ·) (lsm d.1) (lsm l.1))).map
          (fun vi => (p.1 + vi.1, p.2.1 ++ [vi.2], some d.2, some l.2)) := by
  subst hd hl
  constructor
  · intro i h1 h2
    rw [List.getElem?_zipWith, List.getElem?_eq_getElem h1,
      List.getElem?_eq_getElem h2]
    simp [List.get_eq_getElem]
  · rfl

/-- Witness for C3 at a concrete hypothesis, with the toy decoder and LM
over integer scores, at index 0 of the fused score vector. -/
theorem claim_C3_witness :
    ((([0, 0] : List ℤ), ()) = exDecoder (([0] : List Token).getLastI) none ())
    ∧ ((([0, 0] : List ℤ), ()) = exLM (([0] : List Token).getLastI) none)
    ∧ ((∀ (i : ℕ) (h1 : i < (exVec [0, 0]).length) (h2 : i < (exVec [0, 0]).length),
        (List.zipWith (· + ·) (exVec [0, 0]) (exVec [0, 0]))[i]? =
          some ((exVec [0, 0]).get ⟨i, h1⟩ + (exVec [0, 0]).get ⟨i, h2⟩))
      ∧ shallowExpand exDecoder exLM exVec () 2
          ((0 : ℤ), ([0] : List Token), (none : Option Unit), (none : Option Unit)) =
        (topk 2 (List.zipWith (· + ·) (exVec [0, 0]) (exVec [0, 0]))).map
          (fun vi => ((0 : ℤ) + vi.1, ([0] : List Token) ++ [vi.2], some (), some ()))) :=
  ⟨by decide, by decide,
    claim_C3_shallow_fusion_scores exDecoder exLM exVec () 2
      ((0 : ℤ), ([0] : List Token), (none : Option Unit), (none : Option Unit))
      (([0, 0] : List ℤ), ()) (([0, 0] : List ℤ), ()) (by decide) (by decide)⟩

theorem lmLogProbs_ne_nil {S Lh : Type} [Zero S] [Add S]
    (lm_decoding : Token → Option Lh → List S × Lh) (lsm : List S → List S)
    {src : List Token} (h : 2 ≤ src.length) :
    lmLogProbs lm_decoding lsm src ≠ [] := by
  cases src with
  | nil => simp at h
  | cons a t =>
    cases t with
    | nil => simp at h
    | cons b t' => simp [lmLogProbs, lmLogProbsGo]

/-- C6: `lm_heuristics` replays the supplied sequence through the LM step
accumulating `log_softmax(LM logits)[next token]`, stops right after the
supplied next token equals End, and returns the mean of the accumulated
log-probabilities; in particular, over `[Start, a, End]` with an LM whose
per-step log-probability is −1 it returns −1 (second conjunct), and an LM
whose n-th step log-probability is −(n+1) over `[Start, End, a, End]`
returns −1, showing the replay stops at the first End (third conjunct:
without early stopping the mean would be −2). -/
theorem claim_C6_lm_heuristics_mean :
    (∀ (S Lh : Type) [inst1 : Zero S] [inst2 : Add S] [inst3 : Div S]
        [inst4 : NatCast S]
        (lm_decoding : Token → Option Lh → List S × Lh)
        (lsm : List S → List S) (src : List Token) (max_tgt_sz : ℕ),
      2 ≤ src.length →
        lm_heuristics lm_decoding lsm src max_tgt_sz =
          some ((lmLogProbs lm_decoding lsm src).sum /
            ((lmLogProbs lm_decoding lsm src).length : S)))
    ∧ lm_heuristics exLMneg exVecQ [0, 1, 2] 50 = some (-1)
    ∧ lm_heuristics exLMstep exVecQ [0, 2, 1, 2] 9 = some (-1) := by
  refine ⟨?_, ?_, ?_⟩
  · intro S Lh inst1 inst2 inst3 inst4 lm_decoding lsm src max_tgt_sz h
    have hne := lmLogProbs_ne_nil lm_decoding lsm h
    simp only [lm_heuristics]
    rw [if_neg (by simpa [List.length_eq_zero] using hne)]
  · norm_num [lm_heuristics, lmLogProbs, lmLogProbsGo, exLMneg, exVecQ,
      List.getLastI]
  · norm_num [lm_heuristics, lmLogProbs, lmLogProbsGo, exLMstep, exVecQ,
      List.getLastI]

/-- Witness for C6's general mean formula at the concrete sequence
`[0, 1, 2]` with the fixed −1 LM. -/
theorem claim_C6_witness :
    (2 ≤ ([0, 1, 2] : List Token).length)
    ∧ lm_heuristics exLMneg exVecQ [0, 1, 2] 50 =
        some ((lmLogProbs exLMneg exVecQ [0, 1, 2]).sum /
          ((lmLogProbs exLMneg exVecQ [0, 1, 2]).length : ℚ)) :=
  ⟨by decide,
    claim_C6_lm_heuristics_mean.1 ℚ Unit exLMneg exVecQ [0, 1, 2] 50 (by decide)⟩

theorem lmLogProbsGo_length_le {S Lh : Type} [Zero S] [Add S]
    (lm_decoding : Token → Option Lh → List S × Lh) (lsm : List S → List S)
    (end_tok : Token) :
    ∀ (ts : List Token) (x : Token) (hid : Option Lh),
      (lmLogProbsGo lm_decoding lsm end_tok ts x hid).length ≤ ts.length
  | [], _, _ => le_refl 0
  | tok :: rest, x, hid => by
    simp only [lmLogProbsGo, List.length_cons]
    by_cases he : tok = end_tok
    · simp [he]
    · simp only [he, if_false]
      exact Nat.succ_le_succ (lmLogProbsGo_length_le lm_decoding lsm end_tok rest tok _)

/-- C10: `lm_heuristics` ignores its `max_tgt_sz` parameter (it is
rebound to `len(src)` before use), at most `len(src) − 1` steps are ever
scored, an input of length 1 makes the scoring loop run zero times so the
final division divides by zero (modelled `none`, ZeroDivisionError in the
source), and every input of length ≥ 2 yields a defined result. -/
theorem claim_C10_max_tgt_sz_ignored {S Lh : Type} [Zero S] [Add S] [Div S]
    [NatCast S] (lm_decoding : Token → Option Lh → List S × Lh)
    (lsm : List S → List S) (src : List Token) (m m' : ℕ) :
    lm_heuristics lm_decoding lsm src m = lm_heuristics lm_decoding lsm src m'
    ∧ (lmLogProbs lm_decoding lsm src).length ≤ src.length - 1
    ∧ (src.length = 1 → lm_heuristics lm_decoding lsm src m = none)
    ∧ (2 ≤ src.length → (lm_heuristics lm_decoding lsm src m).isSome = true) := by
  refine ⟨rfl, ?_, ?_, ?_⟩
  · calc (lmLogProbs lm_decoding lsm src).length
        ≤ (src.drop 1).length := lmLogProbsGo_length_le lm_decoding lsm _ _ _ _
      _ = src.length - 1 := by simp
  · intro h
    cases src with
    | nil => simp at h
    | cons a t =>
      cases t with
      | nil => simp [lm_heuristics, lmLogProbs, lmLogProbsGo]
      | cons b t' => simp at h
  · intro h
    have hne := lmLogProbs_ne_nil lm_decoding lsm h
    simp only [lm_heuristics]
    rw [if_neg (by simpa [List.length_eq_zero] using hne)]
    rfl

/-- Witness for C10: the parameter is ignored and a length-1 input gives
`none` at `src = [0]`; a length-3 input gives a defined result. -/
theorem claim_C10_witness :
    (lm_heuristics exLMneg exVecQ [0] 50 = lm_heuristics exLMneg exVecQ [0] 7)
    ∧ (lmLogProbs exLMneg exVecQ [0]).length ≤ ([0] : List Token).length - 1
    ∧ (([0] : List Token).length = 1)
    ∧ lm_heuristics exLMneg exVecQ [0] 50 = none
    ∧ (2 ≤ ([0, 1, 2] : List Token).length)
    ∧ (lm_heuristics exLMneg exVecQ [0, 1, 2] 50).isSome = true :=
  ⟨(claim_C10_max_tgt_sz_ignored exLMneg exVecQ [0] 50 7).1,
    (claim_C10_max_tgt_sz_ignored exLMneg exVecQ [0] 50 7).2.1,
    by decide,
    (claim_C10_max_tgt_sz_ignored exLMneg exVecQ [0] 50 7).2.2.1 (by decide),
    by decide,
    (claim_C10_max_tgt_sz_ignored exLMneg exVecQ [0, 1, 2] 50 7).2.2.2 (by decide)⟩

theorem sum_map_div (v : List ℝ) (f : ℝ → ℝ) (s : ℝ) :
    (v.map fun z => f z / s).sum = (v.map f).sum / s := by
  induction v with
  | nil => simp
  | cons a t ih => simp [ih, add_div]

theorem expSum_pos {v : List ℝ} (hv : v ≠ []) : 0 < (v.map Real.exp).sum := by
  refine List.sum_pos _ ?_ (by simpa using hv)
  intro x hx
  obtain ⟨y, _, rfl⟩ := List.mem_map.mp hx
  exact Real.exp_pos y

theorem softmax_length (v : List ℝ) : (softmax v).length = v.length := by
  simp [softmax]

theorem softmax_nonneg {v : List ℝ} (hv : v ≠ []) : ∀ w ∈ softmax v, 0 ≤ w := by
  intro w hw
  simp only [softmax, List.mem_map] at hw
  obtain ⟨z, _, rfl⟩ := hw
  exact div_nonneg (Real.exp_pos z).le (expSum_pos hv).le

theorem softmax_sum {v : List ℝ} (hv : v ≠ []) : (softmax v).sum = 1 := by
  simp only [softmax]
  rw [sum_map_div]
  exact div_self (expSum_pos hv).ne'

/-- C5: for every encoder output of at least one position and every
(possibly multi-layer) recurrent state, `Decoder.attention` produces one
weight per encoder position, the weights are non-negative and sum to 1
(softmax over the position axis), the returned vector is the weighted sum
of the encoder output vectors under those weights concatenated with the
embedded input, and the recurrent state enters only through the
elementwise sum of its layers (`torch.sum(hidden, axis=0)`): replacing
the state stack by the single-layer stack holding its layer sum leaves
the result unchanged. -/
theorem claim_C5_attention (W1 W2 : List ℝ → List ℝ) (V : List ℝ → ℝ)
    (x : List ℝ) (hidden : List (List ℝ)) (enc_output : List (List ℝ))
    (henc : enc_output ≠ []) :
    (attention W1 W2 V x hidden enc_output).2.length = enc_output.length
    ∧ (∀ w ∈ (attention W1 W2 V x hidden enc_output).2, 0 ≤ w)
    ∧ (attention W1 W2 V x hidden enc_output).2.sum = 1
    ∧ (attention W1 W2 V x hidden enc_output).1 =
        stackSum (List.zipWith smul (attention W1 W2 V x hidden enc_output).2
          enc_output) ++ x
    ∧ attention W1 W2 V x hidden enc_output =
        attention W1 W2 V x [stackSum hidden] enc_output := by
  refine ⟨?_, ?_, ?_, rfl, rfl⟩
  · simp [attention, softmax_length]
  · exact softmax_nonneg (by simpa using henc)
  · exact softmax_sum (by simpa using henc)

/-- Witness for C5 at the one-position encoder output `[[1]]`, empty
state stack, identity learned layers. -/
theorem claim_C5_witness :
    (([[1]] : List (List ℝ)) ≠ [])
    ∧ ((attention id id (fun _ => (0 : ℝ)) ([] : List ℝ) [] [[1]]).2.length =
        ([[1]] : List (List ℝ)).length
      ∧ (∀ w ∈ (attention id id (fun _ => (0 : ℝ)) ([] : List ℝ) [] [[1]]).2, 0 ≤ w)
      ∧ (attention id id (fun _ => (0 : ℝ)) ([] : List ℝ) [] [[1]]).2.sum = 1
      ∧ (attention id id (fun _ => (0 : ℝ)) ([] : List ℝ) [] [[1]]).1 =
          stackSum (List.zipWith smul
            (attention id id (fun _ => (0 : ℝ)) ([] : List ℝ) [] [[1]]).2 [[1]]) ++ []
      ∧ attention id id (fun _ => (0 : ℝ)) ([] : List ℝ) [] [[1]] =
          attention id id (fun _ => (0 : ℝ)) ([] : List ℝ) [stackSum []] [[1]]) :=
  ⟨by simp, claim_C5_attention id id (fun _ => (0 : ℝ)) ([] : List ℝ) [] [[1]] (by simp)⟩

/-- C9: for a dual-state (LSTM) recurrent state `(h_n, c_n)`, the
distribution-producing path `Decoder.forward` conditions attention on
state index 1 (the cell part `c_n`) while the hidden-only path
`Decoder.get_hidden` used by deep fusion conditions attention on state
index 0 (the hidden part `h_n`); both paths factor through the same step
core (embed, attend, advance the cell) and differ only in that choice and
in the final projection `fc`, for every input token, state pair, and
encoder output. -/
theorem claim_C9_state_index_asymmetry (embedding : Token → List ℝ)
    (dec_rnn : List ℝ → Option RState → List ℝ × RState)
    (fc : List ℝ → List ℝ) (W1 W2 : List ℝ → List ℝ) (V : List ℝ → ℝ)
    (use_attention : Bool) (dec_layers dec_hidden_dim : ℕ) (x : Token)
    (hpart cpart : List (List ℝ)) (enc_output : List (List ℝ)) :
    decoder_forward embedding dec_rnn fc W1 W2 V use_attention dec_layers
        dec_hidden_dim x (some (.paired hpart cpart)) enc_output =
      some
        (fc (decoder_step_core embedding dec_rnn W1 W2 V use_attention x
            (some (.paired hpart cpart)) enc_output cpart).1,
          (decoder_step_core embedding dec_rnn W1 W2 V use_attention x
            (some (.paired hpart cpart)) enc_output cpart).2.1,
          (decoder_step_core embedding dec_rnn W1 W2 V use_attention x
            (some (.paired hpart cpart)) enc_output cpart).2.2)
    ∧ decoder_get_hidden embedding dec_rnn W1 W2 V use_attention dec_layers
        dec_hidden_dim x (some (.paired hpart cpart)) enc_output =
      (decoder_step_core embedding dec_rnn W1 W2 V use_attention x
        (some (.paired hpart cpart)) enc_output hpart).2.1 :=
  ⟨rfl, rfl⟩

end LMF
